import Mathlib

/-!
Verification of the camera component and frame-pacing loop of the
OpenGL-Journey repository.

The camera (src/src/Camera.cpp, src/include/Camera.hpp) stores an eye
position, a view direction and an up vector as `glm::vec3` values, and its
operations are built from the glm library primitives `normalize`, `rotate`
(Rodrigues rotation about an axis) and `lookAt` (right-handed look-at
matrix).  Those primitives are transcribed here from the glm sources over
the real numbers; `float` arithmetic is idealised as exact real
arithmetic, so every equality proved below is exact (hence in particular
within any stated floating-point tolerance).

The frame-pacing fragment of MainLoop (src/src/main.cpp) is embedded as a
step function on the `frameSafe` flag, driven by a list of observed frame
times in milliseconds.
-/

namespace OpenGLJourney

noncomputable section

/-- Component model of `glm::vec3` over the reals. -/
@[ext]
structure Vec3 where
  x : ℝ
  y : ℝ
  z : ℝ

/-- Component model of `glm::vec4` over the reals. -/
@[ext]
structure Vec4 where
  x : ℝ
  y : ℝ
  z : ℝ
  w : ℝ

/-- A 4x4 matrix in glm's column-major layout: `col i` is `m[i]` in glm. -/
@[ext]
structure Mat4 where
  col0 : Vec4
  col1 : Vec4
  col2 : Vec4
  col3 : Vec4

def Vec3.zero : Vec3 := ⟨0, 0, 0⟩

def Vec3.add (a b : Vec3) : Vec3 := ⟨a.x + b.x, a.y + b.y, a.z + b.z⟩

def Vec3.sub (a b : Vec3) : Vec3 := ⟨a.x - b.x, a.y - b.y, a.z - b.z⟩

def Vec3.smul (k : ℝ) (v : Vec3) : Vec3 := ⟨k * v.x, k * v.y, k * v.z⟩

/-- glm `dot(a, b)` for `vec3`. -/
def dot (a b : Vec3) : ℝ := a.x * b.x + a.y * b.y + a.z * b.z

/-- glm `cross(a, b)`. -/
def cross (a b : Vec3) : Vec3 :=
  ⟨a.y * b.z - b.y * a.z, a.z * b.x - b.z * a.x, a.x * b.y - b.x * a.y⟩

/-- glm `normalize(v) = v * inversesqrt(dot(v, v))`. -/
def glm_normalize (v : Vec3) : Vec3 :=
  Vec3.smul (1 / Real.sqrt (dot v v)) v

/-- glm `radians(degrees)`: conversion factor π/180. -/
def glm_radians (degrees : ℝ) : ℝ := degrees * (Real.pi / 180)

def Vec4.add (a b : Vec4) : Vec4 := ⟨a.x + b.x, a.y + b.y, a.z + b.z, a.w + b.w⟩

def Vec4.smul (k : ℝ) (v : Vec4) : Vec4 := ⟨k * v.x, k * v.y, k * v.z, k * v.w⟩

/-- glm `vec4(v, w)`. -/
def Vec4.ofVec3 (v : Vec3) (w : ℝ) : Vec4 := ⟨v.x, v.y, v.z, w⟩

/-- glm `vec3(u)` for a `vec4` argument: drops the `w` component. -/
def Vec4.xyz (u : Vec4) : Vec3 := ⟨u.x, u.y, u.z⟩

/-- glm `mat4(1.0f)`: the identity matrix. -/
def mat4_identity : Mat4 :=
  ⟨⟨1, 0, 0, 0⟩, ⟨0, 1, 0, 0⟩, ⟨0, 0, 1, 0⟩, ⟨0, 0, 0, 1⟩⟩

/-- glm `operator*(mat4 m, vec4 v)`: the linear combination
`m[0]*v.x + m[1]*v.y + m[2]*v.z + m[3]*v.w` of the columns. -/
def mat4_mulVec4 (m : Mat4) (v : Vec4) : Vec4 :=
  Vec4.add (Vec4.add (Vec4.smul v.x m.col0) (Vec4.smul v.y m.col1))
    (Vec4.add (Vec4.smul v.z m.col2) (Vec4.smul v.w m.col3))

/-- glm `rotate(m, angle, v)`, transcribed from
`glm/ext/matrix_transform.inl`: builds the Rodrigues rotation matrix about
`normalize(v)` and composes it with `m` column by column. -/
def glm_rotate (m : Mat4) (angle : ℝ) (v : Vec3) : Mat4 :=
  let a := angle
  let c := Real.cos a
  let s := Real.sin a
  let axis := glm_normalize v
  let temp := Vec3.smul (1 - c) axis
  let r00 := c + temp.x * axis.x
  let r01 := temp.x * axis.y + s * axis.z
  let r02 := temp.x * axis.z - s * axis.y
  let r10 := temp.y * axis.x - s * axis.z
  let r11 := c + temp.y * axis.y
  let r12 := temp.y * axis.z + s * axis.x
  let r20 := temp.z * axis.x + s * axis.y
  let r21 := temp.z * axis.y - s * axis.x
  let r22 := c + temp.z * axis.z
  { col0 := Vec4.add (Vec4.add (Vec4.smul r00 m.col0) (Vec4.smul r01 m.col1)) (Vec4.smul r02 m.col2)
    col1 := Vec4.add (Vec4.add (Vec4.smul r10 m.col0) (Vec4.smul r11 m.col1)) (Vec4.smul r12 m.col2)
    col2 := Vec4.add (Vec4.add (Vec4.smul r20 m.col0) (Vec4.smul r21 m.col1)) (Vec4.smul r22 m.col2)
    col3 := m.col3 }

/-- glm `lookAtRH(eye, center, up)`, transcribed from
`glm/ext/matrix_transform.inl` (the default right-handed convention). -/
def glm_lookAtRH (eye center up : Vec3) : Mat4 :=
  let f := glm_normalize (Vec3.sub center eye)
  let s := glm_normalize (cross f up)
  let u := cross s f
  { col0 := ⟨s.x, u.x, -f.x, 0⟩
    col1 := ⟨s.y, u.y, -f.y, 0⟩
    col2 := ⟨s.z, u.z, -f.z, 0⟩
    col3 := ⟨-(dot s eye), -(dot u eye), dot f eye, 1⟩ }

/-- The Rodrigues rotation of `v` about the axis `a` by angle `θ`:
`cos θ • v + sin θ • (a × v) + (1 - cos θ)(a · v) • a`.  This is the
textbook form of "rotate `v` around the axis `a`"; the glm matrix built by
`glm_rotate` implements exactly this map (proved below). -/
def rodrigues (θ : ℝ) (a v : Vec3) : Vec3 :=
  Vec3.add
    (Vec3.add (Vec3.smul (Real.cos θ) v) (Vec3.smul (Real.sin θ) (cross a v)))
    (Vec3.smul ((1 - Real.cos θ) * dot a v) a)

/-- The camera state: the three private `glm::vec3` fields of `class Camera`
(src/include/Camera.hpp). -/
@[ext]
structure Camera where
  eye : Vec3
  viewDirection : Vec3
  upVector : Vec3

namespace Camera

/-- The default constructor `Camera::Camera()`:
eye (0,0,5), viewDirection (0,0,-1), upVector (0,1,0). -/
def default : Camera :=
  { eye := ⟨0, 0, 5⟩
    viewDirection := ⟨0, 0, -1⟩
    upVector := ⟨0, 1, 0⟩ }

/-- `Camera::getViewMatrix()`:
`glm::lookAt(eye, eye + viewDirection, upVector)`.  The C++ body reads the
three fields and writes none of them, so it is embedded as a pure
function of the state. -/
def getViewMatrix (cam : Camera) : Mat4 :=
  glm_lookAtRH cam.eye (Vec3.add cam.eye cam.viewDirection) cam.upVector

/-- `Camera::mouseLook(deltaX, deltaY)`: builds the yaw rotation
`glm::rotate(glm::mat4(1.0f), glm::radians(-deltaX * 0.1f), upVector)`,
applies it to `vec4(viewDirection, 0)`, truncates to `vec3` and
normalizes.  `deltaY` is a parameter of the C++ function that its body
never reads. -/
def mouseLook (cam : Camera) (deltaX deltaY : ℤ) : Camera :=
  let sensitivity : ℝ := 0.1
  let yawRotation : Mat4 :=
    glm_rotate mat4_identity (glm_radians (((-deltaX : ℤ) : ℝ) * sensitivity)) cam.upVector
  let vd : Vec3 := (mat4_mulVec4 yawRotation (Vec4.ofVec3 cam.viewDirection 0)).xyz
  { cam with viewDirection := glm_normalize vd }

/-- `Camera::moveForward(speed)`: `eye.z -= speed`. -/
def moveForward (cam : Camera) (speed : ℝ) : Camera :=
  { cam with eye := { cam.eye with z := cam.eye.z - speed } }

/-- `Camera::moveBackward(speed)`: `eye.z += speed`. -/
def moveBackward (cam : Camera) (speed : ℝ) : Camera :=
  { cam with eye := { cam.eye with z := cam.eye.z + speed } }

/-- `Camera::moveLeft(speed)`: `eye.x -= speed`. -/
def moveLeft (cam : Camera) (speed : ℝ) : Camera :=
  { cam with eye := { cam.eye with x := cam.eye.x - speed } }

/-- `Camera::moveRight(speed)`: `eye.x += speed`. -/
def moveRight (cam : Camera) (speed : ℝ) : Camera :=
  { cam with eye := { cam.eye with x := cam.eye.x + speed } }

end Camera

/-- One camera method call, for stating invariants over arbitrary call
sequences.  `getViewMatrix` is included because the C++ method is callable
in any sequence; its state effect is the identity (its body assigns no
field). -/
inductive Op
  | look (dx dy : ℤ)
  | moveForward (s : ℝ)
  | moveBackward (s : ℝ)
  | moveLeft (s : ℝ)
  | moveRight (s : ℝ)
  | getViewMatrix

/-- The state effect of one camera method call. -/
def applyOp (cam : Camera) : Op → Camera
  | .look dx dy => cam.mouseLook dx dy
  | .moveForward s => cam.moveForward s
  | .moveBackward s => cam.moveBackward s
  | .moveLeft s => cam.moveLeft s
  | .moveRight s => cam.moveRight s
  | .getViewMatrix => cam

/-- The state after a sequence of camera method calls. -/
def runOps (cam : Camera) (ops : List Op) : Camera :=
  ops.foldl applyOp cam

end

/-! ### Frame-pacing fragment of MainLoop (src/src/main.cpp) -/

/-- `const int gTargetFPS = 60;` -/
def gTargetFPS : ℤ := 60

/-- `const int gFrameDuration = 1000 / gTargetFPS;` (C++ integer division). -/
def gFrameDuration : ℤ := 1000 / gTargetFPS

/-- The observable pacing outcome of one iteration of the `while` loop in
`MainLoop`: whether the frame-rate warning was printed and whether
`SDL_Delay` was called. -/
structure FrameOutcome where
  warned : Bool
  delayed : Bool
deriving DecidableEq, Repr

/-- One iteration of `MainLoop`'s pacing logic, given the current
`frameSafe` flag and the measured `frameTime` in milliseconds:

if `frameTime < gFrameDuration` delay; else if
`frameSafe && frameTime > gFrameDuration` warn and clear `frameSafe`.
Returns the outcome and the updated `frameSafe` flag. -/
def frameStep (frameSafe : Bool) (frameTime : ℤ) : FrameOutcome × Bool :=
  if frameTime < gFrameDuration then
    (⟨false, true⟩, frameSafe)
  else if frameSafe = true ∧ gFrameDuration < frameTime then
    (⟨true, false⟩, false)
  else
    (⟨false, false⟩, frameSafe)

/-- The pacing outcomes of a run of `MainLoop` over a list of measured
frame times, threading the `frameSafe` flag. -/
def runLoop : Bool → List ℤ → List FrameOutcome
  | _, [] => []
  | safe, t :: ts =>
    let r := frameStep safe t
    r.1 :: runLoop r.2 ts

/-- Number of frames of a run on which the frame-rate warning fired. -/
def countWarnings (rs : List FrameOutcome) : ℕ :=
  rs.countP (fun r => r.warned)

/-! ### Vector algebra lemmas -/

theorem dot_self_nonneg (v : Vec3) : 0 ≤ dot v v := by
  unfold dot
  nlinarith [mul_self_nonneg v.x, mul_self_nonneg v.y, mul_self_nonneg v.z]

theorem eq_zero_of_dot_self_eq_zero {v : Vec3} (h : dot v v = 0) : v = Vec3.zero := by
  rcases v with ⟨x, y, z⟩
  simp only [dot] at h
  have hx : x * x = 0 := le_antisymm
    (by nlinarith [mul_self_nonneg y, mul_self_nonneg z]) (mul_self_nonneg x)
  have hy : y * y = 0 := le_antisymm
    (by nlinarith [mul_self_nonneg x, mul_self_nonneg z]) (mul_self_nonneg y)
  have hz : z * z = 0 := le_antisymm
    (by nlinarith [mul_self_nonneg x, mul_self_nonneg y]) (mul_self_nonneg z)
  simp only [Vec3.zero, Vec3.mk.injEq]
  exact ⟨mul_self_eq_zero.mp hx, mul_self_eq_zero.mp hy, mul_self_eq_zero.mp hz⟩

theorem dot_self_pos {v : Vec3} (hv : v ≠ Vec3.zero) : 0 < dot v v :=
  lt_of_le_of_ne (dot_self_nonneg v) (fun h => hv (eq_zero_of_dot_self_eq_zero h.symm))

/-- The glm normalization factor `1/sqrt(dot v v)` squares against `dot v v`
to `1` for a nonzero vector. -/
theorem normalize_factor_sq {v : Vec3} (hv : v ≠ Vec3.zero) :
    (1 / Real.sqrt (dot v v)) ^ 2 * dot v v = 1 := by
  have hpos := dot_self_pos hv
  rw [div_pow, one_pow, Real.sq_sqrt hpos.le]
  field_simp

/-- `glm_normalize` of a nonzero vector is a unit vector. -/
theorem dot_normalize_self {v : Vec3} (hv : v ≠ Vec3.zero) :
    dot (glm_normalize v) (glm_normalize v) = 1 := by
  have hk := normalize_factor_sq hv
  simp only [glm_normalize, Vec3.smul, dot] at hk ⊢
  linear_combination hk

/-- `glm_normalize` fixes a vector that is already unit length. -/
theorem glm_normalize_of_unit {v : Vec3} (hv : dot v v = 1) : glm_normalize v = v := by
  ext <;> simp [glm_normalize, Vec3.smul, hv]

/-- The 3x3 action of the glm rotation matrix (built on the identity, acting
on a direction vector with homogeneous coordinate 0) is exactly the Rodrigues
rotation about the normalized axis. -/
theorem rotate_action (θ : ℝ) (u v : Vec3) :
    (mat4_mulVec4 (glm_rotate mat4_identity θ u) (Vec4.ofVec3 v 0)).xyz
      = rodrigues θ (glm_normalize u) v := by
  ext <;>
    simp only [glm_rotate, mat4_identity, mat4_mulVec4, Vec4.ofVec3, Vec4.xyz,
      Vec4.add, Vec4.smul, rodrigues, Vec3.add, Vec3.smul, cross, dot,
      glm_normalize] <;>
    ring

/-- A Rodrigues rotation about a unit axis preserves the squared norm. -/
theorem dot_rodrigues_self (θ : ℝ) {a : Vec3} (v : Vec3) (ha : dot a a = 1) :
    dot (rodrigues θ a v) (rodrigues θ a v) = dot v v := by
  have hcs : Real.sin θ ^ 2 + Real.cos θ ^ 2 = 1 := Real.sin_sq_add_cos_sq θ
  simp only [rodrigues, Vec3.add, Vec3.smul, cross, dot] at ha ⊢
  linear_combination
    ((v.x * v.x + v.y * v.y + v.z * v.z)
        - (a.x * v.x + a.y * v.y + a.z * v.z) ^ 2) * hcs
      + (Real.sin θ ^ 2 * (v.x * v.x + v.y * v.y + v.z * v.z)
          + (1 - Real.cos θ) ^ 2 * (a.x * v.x + a.y * v.y + a.z * v.z) ^ 2) * ha

/-- A Rodrigues rotation about a rescaled axis `k • u` with `k² (u·u) = 1`
preserves the dot product with `u` (the axial component). -/
theorem dot_rodrigues_smul_axis (θ k : ℝ) (u v : Vec3)
    (hk : k ^ 2 * dot u u = 1) :
    dot (rodrigues θ (Vec3.smul k u) v) u = dot v u := by
  simp only [Vec3.smul, rodrigues, Vec3.add, cross, dot] at hk ⊢
  linear_combination
    ((1 - Real.cos θ) * (u.x * v.x + u.y * v.y + u.z * v.z)) * hk

/-! ### mouseLook characterization -/

/-- The view direction stored by `mouseLook` is the normalized Rodrigues
rotation of the old view direction about the normalized up vector, by the
angle `radians(-deltaX * 0.1)`. -/
theorem mouseLook_viewDirection (cam : Camera) (dx dy : ℤ) :
    (cam.mouseLook dx dy).viewDirection
      = glm_normalize
          (rodrigues (glm_radians (((-dx : ℤ) : ℝ) * 0.1))
            (glm_normalize cam.upVector) cam.viewDirection) := by
  simp only [Camera.mouseLook]
  rw [rotate_action]

theorem mouseLook_eye (cam : Camera) (dx dy : ℤ) :
    (cam.mouseLook dx dy).eye = cam.eye := rfl

theorem mouseLook_upVector (cam : Camera) (dx dy : ℤ) :
    (cam.mouseLook dx dy).upVector = cam.upVector := rfl

/-- `mouseLook` keeps the view direction unit length, provided the up
vector is nonzero. -/
theorem mouseLook_unit (cam : Camera) (dx dy : ℤ)
    (hvd : dot cam.viewDirection cam.viewDirection = 1)
    (hup : cam.upVector ≠ Vec3.zero) :
    dot (cam.mouseLook dx dy).viewDirection (cam.mouseLook dx dy).viewDirection = 1 := by
  rw [mouseLook_viewDirection]
  have ha : dot (glm_normalize cam.upVector) (glm_normalize cam.upVector) = 1 :=
    dot_normalize_self hup
  have hw :
      dot (rodrigues (glm_radians (((-dx : ℤ) : ℝ) * 0.1))
            (glm_normalize cam.upVector) cam.viewDirection)
          (rodrigues (glm_radians (((-dx : ℤ) : ℝ) * 0.1))
            (glm_normalize cam.upVector) cam.viewDirection) = 1 := by
    rw [dot_rodrigues_self _ _ ha, hvd]
  rw [glm_normalize_of_unit hw]
  exact hw

/-- `mouseLook` preserves the component of the view direction along the up
vector, provided the view direction is unit length and the up vector is
nonzero. -/
theorem mouseLook_dot_up (cam : Camera) (dx dy : ℤ)
    (hvd : dot cam.viewDirection cam.viewDirection = 1)
    (hup : cam.upVector ≠ Vec3.zero) :
    dot (cam.mouseLook dx dy).viewDirection cam.upVector
      = dot cam.viewDirection cam.upVector := by
  rw [mouseLook_viewDirection]
  have ha : dot (glm_normalize cam.upVector) (glm_normalize cam.upVector) = 1 :=
    dot_normalize_self hup
  have hw :
      dot (rodrigues (glm_radians (((-dx : ℤ) : ℝ) * 0.1))
            (glm_normalize cam.upVector) cam.viewDirection)
          (rodrigues (glm_radians (((-dx : ℤ) : ℝ) * 0.1))
            (glm_normalize cam.upVector) cam.viewDirection) = 1 := by
    rw [dot_rodrigues_self _ _ ha, hvd]
  rw [glm_normalize_of_unit hw]
  exact dot_rodrigues_smul_axis _ _ _ _ (normalize_factor_sq hup)

/-! ### Invariants over call sequences -/

/-- No camera operation writes the up vector. -/
theorem applyOp_upVector (cam : Camera) (op : Op) :
    (applyOp cam op).upVector = cam.upVector := by
  cases op <;> rfl

theorem runOps_upVector (cam : Camera) (ops : List Op) :
    (runOps cam ops).upVector = cam.upVector := by
  induction ops generalizing cam with
  | nil => rfl
  | cons op ops ih =>
    rw [runOps, List.foldl_cons]
    rw [show List.foldl applyOp (applyOp cam op) ops = runOps (applyOp cam op) ops from rfl]
    rw [ih, applyOp_upVector]

/-- Every camera operation preserves a unit-length view direction, as long
as the up vector is nonzero. -/
theorem applyOp_unit (cam : Camera) (op : Op)
    (hvd : dot cam.viewDirection cam.viewDirection = 1)
    (hup : cam.upVector ≠ Vec3.zero) :
    dot (applyOp cam op).viewDirection (applyOp cam op).viewDirection = 1 := by
  cases op with
  | look dx dy => exact mouseLook_unit cam dx dy hvd hup
  | moveForward s => exact hvd
  | moveBackward s => exact hvd
  | moveLeft s => exact hvd
  | moveRight s => exact hvd
  | getViewMatrix => exact hvd

theorem runOps_unit (cam : Camera) (ops : List Op)
    (hvd : dot cam.viewDirection cam.viewDirection = 1)
    (hup : cam.upVector ≠ Vec3.zero) :
    dot (runOps cam ops).viewDirection (runOps cam ops).viewDirection = 1 := by
  induction ops generalizing cam with
  | nil => exact hvd
  | cons op ops ih =>
    rw [runOps, List.foldl_cons]
    rw [show List.foldl applyOp (applyOp cam op) ops = runOps (applyOp cam op) ops from rfl]
    exact ih (applyOp cam op) (applyOp_unit cam op hvd hup)
      (by rw [applyOp_upVector]; exact hup)

/-! ### Frame-loop lemmas -/

theorem frameStep_false_warned (t : ℤ) : (frameStep false t).1.warned = false := by
  unfold frameStep
  split
  · rfl
  split
  · next h => exact absurd h.1 (by simp)
  · rfl

theorem frameStep_false_snd (t : ℤ) : (frameStep false t).2 = false := by
  unfold frameStep
  split
  · rfl
  split
  · next h => exact absurd h.1 (by simp)
  · rfl

theorem runLoop_length (safe : Bool) (ts : List ℤ) :
    (runLoop safe ts).length = ts.length := by
  induction ts generalizing safe with
  | nil => rfl
  | cons t ts ih => simp [runLoop, ih]

/-- Once `frameSafe` is cleared, no later frame ever warns. -/
theorem countWarnings_runLoop_false (ts : List ℤ) :
    countWarnings (runLoop false ts) = 0 := by
  induction ts with
  | nil => rfl
  | cons t ts ih =>
    simp only [runLoop, countWarnings, List.countP_cons] at ih ⊢
    rw [frameStep_false_snd, frameStep_false_warned]
    simp [ih]

/-- Over any run that starts with `frameSafe` set, the warning fires at
most once. -/
theorem countWarnings_le_one (ts : List ℤ) :
    countWarnings (runLoop true ts) ≤ 1 := by
  induction ts with
  | nil => simp [runLoop, countWarnings]
  | cons t ts ih =>
    simp only [runLoop, countWarnings, List.countP_cons] at ih ⊢
    by_cases h1 : t < gFrameDuration
    · simp only [frameStep, if_pos h1]
      simpa using ih
    · by_cases h2 : gFrameDuration < t
      · simp only [frameStep, if_neg h1, if_pos (⟨rfl, h2⟩ : true = true ∧ gFrameDuration < t)]
        have h0 := countWarnings_runLoop_false ts
        simp only [countWarnings] at h0
        simp [h2, h0]
      · simp only [frameStep]
        rw [if_neg h1, if_neg (by simp [h2])]
        simpa using ih

/-- A frame whose time strictly exceeds the budget is never delayed,
whatever the current `frameSafe` flag. -/
theorem runLoop_not_delayed (safe : Bool) (ts : List ℤ) :
    ∀ p ∈ ts.zip (runLoop safe ts), gFrameDuration < p.1 → p.2.delayed = false := by
  induction ts generalizing safe with
  | nil => intro p hp; simp at hp
  | cons t ts ih =>
    intro p hp hgt
    simp only [runLoop, List.zip_cons_cons, List.mem_cons] at hp
    rcases hp with hp | hp
    · subst hp
      simp only [frameStep] at hgt ⊢
      rw [if_neg (not_lt.mpr hgt.le)]
      split
      · rfl
      · rfl
    · exact ih _ _ hp hgt

/-- Repeated `getViewMatrix` calls leave the camera state untouched. -/
theorem runOps_replicate_getViewMatrix (cam : Camera) (n : ℕ) :
    runOps cam (List.replicate n Op.getViewMatrix) = cam := by
  induction n with
  | zero => rfl
  | succ n ih =>
    rw [List.replicate_succ, runOps, List.foldl_cons]
    exact ih

/-! ### Claim theorems -/

/-- C1: for every camera state with a unit-length view direction and a
nonzero up vector, and every horizontal delta `dx`, `mouseLook dx dy`
stores the Rodrigues rotation of `facing` about the (normalized) up axis
by the angle `radians(-dx * 0.1)` (0.1 degrees of yaw per pixel),
renormalized; consequently the component of `facing` along `up` is
unchanged by the call. -/
theorem claim_C1_mouseLook_yaw (cam : Camera) (dx dy : ℤ)
    (hvd : dot cam.viewDirection cam.viewDirection = 1)
    (hup : cam.upVector ≠ Vec3.zero) :
    (cam.mouseLook dx dy).viewDirection
        = glm_normalize
            (rodrigues (glm_radians (((-dx : ℤ) : ℝ) * 0.1))
              (glm_normalize cam.upVector) cam.viewDirection)
    ∧ dot (cam.mouseLook dx dy).viewDirection cam.upVector
        = dot cam.viewDirection cam.upVector :=
  ⟨mouseLook_viewDirection cam dx dy, mouseLook_dot_up cam dx dy hvd hup⟩

/-- Witness for C1 at the default camera with `dx = 5 > 0`, `dy = 3`. -/
theorem claim_C1_mouseLook_yaw_witness :
    dot Camera.default.viewDirection Camera.default.viewDirection = 1
    ∧ Camera.default.upVector ≠ Vec3.zero
    ∧ dot ((Camera.default.mouseLook 5 3).viewDirection) Camera.default.upVector
        = dot Camera.default.viewDirection Camera.default.upVector := by
  have h1 : dot Camera.default.viewDirection Camera.default.viewDirection = 1 := by
    norm_num [Camera.default, dot]
  have h2 : Camera.default.upVector ≠ Vec3.zero := by
    simp [Camera.default, Vec3.zero]
  exact ⟨h1, h2, (claim_C1_mouseLook_yaw Camera.default 5 3 h1 h2).2⟩

/-- C2: `moveLeft`/`moveRight` change only the X component of the eye
position (subtracting resp. adding the speed), `moveForward`/`moveBackward`
change only the Z component (subtracting resp. adding), `mouseLook` never
changes the eye position, and no move operation changes the view direction
or the up vector. -/
theorem claim_C2_movement_axes (cam : Camera) (s : ℝ) (dx dy : ℤ) :
    ((cam.moveLeft s).eye.x = cam.eye.x - s
      ∧ (cam.moveLeft s).eye.y = cam.eye.y
      ∧ (cam.moveLeft s).eye.z = cam.eye.z)
    ∧ ((cam.moveRight s).eye.x = cam.eye.x + s
      ∧ (cam.moveRight s).eye.y = cam.eye.y
      ∧ (cam.moveRight s).eye.z = cam.eye.z)
    ∧ ((cam.moveForward s).eye.z = cam.eye.z - s
      ∧ (cam.moveForward s).eye.x = cam.eye.x
      ∧ (cam.moveForward s).eye.y = cam.eye.y)
    ∧ ((cam.moveBackward s).eye.z = cam.eye.z + s
      ∧ (cam.moveBackward s).eye.x = cam.eye.x
      ∧ (cam.moveBackward s).eye.y = cam.eye.y)
    ∧ (cam.mouseLook dx dy).eye = cam.eye
    ∧ ((cam.moveLeft s).viewDirection = cam.viewDirection
      ∧ (cam.moveRight s).viewDirection = cam.viewDirection
      ∧ (cam.moveForward s).viewDirection = cam.viewDirection
      ∧ (cam.moveBackward s).viewDirection = cam.viewDirection)
    ∧ ((cam.moveLeft s).upVector = cam.upVector
      ∧ (cam.moveRight s).upVector = cam.upVector
      ∧ (cam.moveForward s).upVector = cam.upVector
      ∧ (cam.moveBackward s).upVector = cam.upVector) :=
  ⟨⟨rfl, rfl, rfl⟩, ⟨rfl, rfl, rfl⟩, ⟨rfl, rfl, rfl⟩, ⟨rfl, rfl, rfl⟩,
    rfl, ⟨rfl, rfl, rfl, rfl⟩, ⟨rfl, rfl, rfl, rfl⟩⟩

/-- C3: `getViewMatrix` returns the right-handed look-at matrix built from
the eye position, the target `eye + viewDirection` and the up vector, it
mutates no camera state, and any number of successive calls yields the
same matrix. -/
theorem claim_C3_view_matrix_pure (cam : Camera) :
    cam.getViewMatrix
        = glm_lookAtRH cam.eye (Vec3.add cam.eye cam.viewDirection) cam.upVector
    ∧ applyOp cam Op.getViewMatrix = cam
    ∧ ∀ n : ℕ,
        (runOps cam (List.replicate n Op.getViewMatrix)).getViewMatrix
          = cam.getViewMatrix :=
  ⟨rfl, rfl, fun n => by rw [runOps_replicate_getViewMatrix]⟩

/-- C4: the default-constructed camera has eye `(0,0,5)`, view direction
`(0,0,-1)` and up `(0,1,0)`, and its view matrix is the look-at matrix for
eye `(0,0,5)`, target `(0,0,4)`, up `(0,1,0)`. -/
theorem claim_C4_default_camera :
    Camera.default.eye = ⟨0, 0, 5⟩
    ∧ Camera.default.viewDirection = ⟨0, 0, -1⟩
    ∧ Camera.default.upVector = ⟨0, 1, 0⟩
    ∧ Camera.default.getViewMatrix = glm_lookAtRH ⟨0, 0, 5⟩ ⟨0, 0, 4⟩ ⟨0, 1, 0⟩ := by
  refine ⟨rfl, rfl, rfl, ?_⟩
  have h : Vec3.add ⟨0, 0, 5⟩ ⟨0, 0, -1⟩ = (⟨0, 0, 4⟩ : Vec3) := by
    simp [Vec3.add]
    norm_num
  show glm_lookAtRH ⟨0, 0, 5⟩ (Vec3.add ⟨0, 0, 5⟩ ⟨0, 0, -1⟩) ⟨0, 1, 0⟩ = _
  rw [h]

/-- C5: `moveForward d` followed by `moveBackward d` restores the whole
camera state (in particular the eye position) exactly, for any `d`. -/
theorem claim_C5_forward_backward_cancel (cam : Camera) (d : ℝ) :
    (cam.moveForward d).moveBackward d = cam := by
  ext <;> simp [Camera.moveForward, Camera.moveBackward]

/-- C6: starting from a unit view direction and a nonzero up vector, after
any sequence of camera operations (in particular any sequence of
`mouseLook` calls) the stored view direction has unit length exactly, hence
within tolerance `1e-5`. -/
theorem claim_C6_unit_facing_invariant (cam : Camera) (ops : List Op)
    (hvd : dot cam.viewDirection cam.viewDirection = 1)
    (hup : cam.upVector ≠ Vec3.zero) :
    dot (runOps cam ops).viewDirection (runOps cam ops).viewDirection = 1
    ∧ |Real.sqrt (dot (runOps cam ops).viewDirection (runOps cam ops).viewDirection) - 1|
        ≤ 1e-5 := by
  have h := runOps_unit cam ops hvd hup
  refine ⟨h, ?_⟩
  rw [h, Real.sqrt_one, sub_self, abs_zero]
  norm_num

/-- Witness for C6 at the default camera over a mixed call sequence. -/
theorem claim_C6_unit_facing_invariant_witness :
    dot Camera.default.viewDirection Camera.default.viewDirection = 1
    ∧ Camera.default.upVector ≠ Vec3.zero
    ∧ dot (runOps Camera.default [Op.look 3 7, Op.moveForward 1, Op.look (-2) 0]).viewDirection
          (runOps Camera.default [Op.look 3 7, Op.moveForward 1, Op.look (-2) 0]).viewDirection
        = 1 := by
  have h1 : dot Camera.default.viewDirection Camera.default.viewDirection = 1 := by
    norm_num [Camera.default, dot]
  have h2 : Camera.default.upVector ≠ Vec3.zero := by
    simp [Camera.default, Vec3.zero]
  exact ⟨h1, h2,
    (claim_C6_unit_facing_invariant Camera.default
      [Op.look 3 7, Op.moveForward 1, Op.look (-2) 0] h1 h2).1⟩

/-- C7: `mouseLook` is independent of its `deltaY` argument: for any two
vertical deltas the resulting camera states are equal. -/
theorem claim_C7_deltaY_ignored (cam : Camera) (dx dy1 dy2 : ℤ) :
    cam.mouseLook dx dy1 = cam.mouseLook dx dy2 := rfl

/-- C8: over any run of the frame loop (any list of measured frame times)
starting with `frameSafe` set, every frame produces exactly one pacing
outcome, the frame-rate warning fires at most once over the entire run,
and a frame whose time exceeds the budget `gFrameDuration = 1000/60` is
never delayed. -/
theorem claim_C8_warning_once (ts : List ℤ) :
    (runLoop true ts).length = ts.length
    ∧ countWarnings (runLoop true ts) ≤ 1
    ∧ ∀ p ∈ ts.zip (runLoop true ts), gFrameDuration < p.1 → p.2.delayed = false :=
  ⟨runLoop_length true ts, countWarnings_le_one ts, runLoop_not_delayed true ts⟩

/-- Witness for C8 on the run `[20, 30, 5]`: the first overrunning frame
warns and is not delayed. -/
theorem claim_C8_warning_once_witness :
    ((20 : ℤ), (⟨true, false⟩ : FrameOutcome))
        ∈ ([20, 30, 5] : List ℤ).zip (runLoop true [20, 30, 5])
    ∧ gFrameDuration < (20 : ℤ)
    ∧ (⟨true, false⟩ : FrameOutcome).delayed = false := by
  refine ⟨by decide, by decide, ?_⟩
  exact (claim_C8_warning_once [20, 30, 5]).2.2
    ((20 : ℤ), (⟨true, false⟩ : FrameOutcome)) (by decide) (by decide)

/-- C9: no camera operation ever writes the up vector: over any call
sequence it keeps the value set at construction, and for the default
camera it stays `(0,1,0)` forever. -/
theorem claim_C9_up_never_written (cam : Camera) (ops : List Op) :
    (runOps cam ops).upVector = cam.upVector
    ∧ (runOps Camera.default ops).upVector = ⟨0, 1, 0⟩ :=
  ⟨runOps_upVector cam ops, by rw [runOps_upVector]; rfl⟩

/-- C10: negative speeds invert direction: `moveForward s` coincides with
`moveBackward (-s)` and `moveLeft s` with `moveRight (-s)`, as whole-state
equalities. -/
theorem claim_C10_negative_speed (cam : Camera) (s : ℝ) :
    cam.moveForward s = cam.moveBackward (-s)
    ∧ cam.moveLeft s = cam.moveRight (-s) := by
  constructor <;> ext <;>
    simp [Camera.moveForward, Camera.moveBackward, Camera.moveLeft, Camera.moveRight,
      sub_eq_add_neg]

end OpenGLJourney
